import Mathlib

/-!
Verification of the CIDR arithmetic engine of `netcider.py`.

The source operates on Python strings throughout: an input `"a.b.c.d/n"` is
sliced at the first `/`, octet strings are produced by `str.split('.')`,
parsed with `int`, and rendered back with `str` and `'.'.join`.  We embed the
string primitives at the character-list level (Lean's `String` is a list of
characters at the logical level), so that every definition is executable by
kernel reduction, and translate each method of the `CIDR` class one-for-one.

Modelling notes, applying to the whole file:
* `int(s)` is modelled for non-negative decimal-digit literals (`pyInt?`);
  Python additionally strips whitespace and accepts signs and underscores,
  forms that never occur in the data this development evaluates, and the
  failure cases coincide on every string appearing here (e.g. `int('abc')`
  raises, `pyInt? "abc" = none`).
* `address_to_bin` in the source returns binary digit strings
  (`bin(int(v))[2:].zfill(8)`); every consumer immediately reads them back
  with `int(_, 2)`, so the embedding keeps the numeric values.  Note that the
  value is NOT truncated to 8 bits: `bin(300)` has 9 digits and `zfill(8)`
  pads only on the left, so out-of-range octets keep their full value.
* Python exceptions (`ValueError` from `index`/`int`, `IndexError` from
  list subscripts) are modelled by `Option`: `none` means the corresponding
  Python expression raises.
-/

set_option maxRecDepth 10000

/-- `int(s)` for a non-negative decimal literal: all characters must be
digits and the string non-empty; the value is the base-10 fold. -/
def pyInt? (s : String) : Option Nat :=
  if s.data ≠ [] && s.data.all Char.isDigit then
    some (s.data.foldl (fun n c => n * 10 + (c.toNat - 48)) 0)
  else none

/-- Worker for `str.split(sep)` with a one-character separator. -/
def splitCharAux (sep : Char) : List Char → List Char → List String
  | [], acc => [String.mk acc.reverse]
  | c :: cs, acc =>
    if c = sep then String.mk acc.reverse :: splitCharAux sep cs []
    else splitCharAux sep cs (c :: acc)

/-- `s.split(sep)` for a one-character separator (empty pieces are kept,
exactly as in Python). -/
def pySplit (s : String) (sep : Char) : List String := splitCharAux sep s.data []

/-- Worker for locating the first occurrence of a separator character. -/
def splitFirstAux (sep : Char) : List Char → List Char → Option (String × String)
  | [], _ => none
  | c :: cs, acc =>
    if c = sep then some (String.mk acc.reverse, String.mk cs)
    else splitFirstAux sep cs (c :: acc)

/-- `index = address.index('/'); (address[:index], address[index+1:])`:
the slices around the FIRST `/`, or `none` when there is none
(`str.index` raises `ValueError` then). -/
def sliceAtSlash (s : String) : Option (String × String) :=
  splitFirstAux '/' s.data []

/-- `sep.join(parts)`. -/
def pyJoin (sep : String) : List String → String
  | [] => ""
  | [x] => x
  | x :: xs => x ++ sep ++ pyJoin sep xs

namespace CIDR

/-- `list_to_string(ipList)` = `'.'.join(map(str, ipList))` applied to a list
of strings (where `str` is the identity). -/
def list_to_string (ipList : List String) : String := pyJoin "." ipList

/-- `list_to_string(ipList)` = `'.'.join(map(str, ipList))` applied to a list
of integers. -/
def list_to_string_nat (ipList : List Nat) : String :=
  pyJoin "." (ipList.map toString)

/-- `address_to_bin(address)`: split at dots and `int`-parse every piece
(the source renders each value as a left-zero-padded binary string; we keep
the values, see the header note). -/
def address_to_bin (address : String) : Option (List Nat) :=
  (pySplit address '.').mapM pyInt?

/-- The bit string `'1' * m + '0' * (32 - m)`.  For `m > 32` Python's
`'0' * (32 - m)` is the empty string, which truncated `Nat` subtraction
reproduces. -/
def binMask (m : Nat) : List Bool :=
  List.replicate m true ++ List.replicate (32 - m) false

/-- `zip(*[iter(binMask)] * 8)`: chop into groups of eight, dropping an
incomplete final group. -/
def chunks8 : List Bool → List (List Bool)
  | b0 :: b1 :: b2 :: b3 :: b4 :: b5 :: b6 :: b7 :: rest =>
    [b0, b1, b2, b3, b4, b5, b6, b7] :: chunks8 rest
  | _ => []

/-- `int(v, 2)` on a binary digit string (as a list of bits). -/
def bitsToNat (bits : List Bool) : Nat :=
  bits.foldl (fun acc b => 2 * acc + cond b 1 0) 0

/-- The octet values produced by `calculate_netmask` for an already parsed
mask integer `m` (this is also `bin_to_address(maskList)` of the source). -/
def netmask_octets (m : Nat) : List Nat :=
  (chunks8 (binMask m)).map bitsToNat

/-- `calculate_netmask(mask)`: parse the mask text, build the bit string,
chop into octets and render dotted-decimal. -/
def calculate_netmask (mask : String) : Option String :=
  (pyInt? mask).map fun m => list_to_string_nat (netmask_octets m)

/-- The octet values produced by `calculate_wildcard`: `255 - val` per
netmask octet (each netmask octet is an 8-bit chunk, hence at most 255,
so `Nat` subtraction is exact). -/
def wildcard_octets (m : Nat) : List Nat :=
  (netmask_octets m).map (255 - ·)

/-- `calculate_wildcard(mask)`. -/
def calculate_wildcard (mask : String) : Option String :=
  (pyInt? mask).map fun m => list_to_string_nat (wildcard_octets m)

/-- `network(address, netmask)`: per-octet `int(a, 2) & int(b, 2)` over the
zipped (hence length-truncating) binary octet lists; the source returns the
integer list `bin_to_address(binNetwork)`. -/
def network (address netmask : String) : Option (List Nat) :=
  (address_to_bin address).bind fun a =>
    (address_to_bin netmask).map fun b => List.zipWith (· &&& ·) a b

/-- `host_min(address)`: split at dots, re-canonicalise entry 3 via
`str(int(_))` (an `IndexError`, hence `none`, when there are fewer than four
pieces) and join back. -/
def host_min (address : String) : Option String :=
  let temp := pySplit address '.'
  if h : 3 < temp.length then
    (pyInt? (temp.get ⟨3, h⟩)).map fun n =>
      list_to_string (temp.set 3 (toString n))
  else none

/-- `host_max(address, wildcard)`: re-canonicalise wildcard entry 3, then
`int`-parse both octet lists and add them pairwise (zip truncates to the
shorter list); no carry propagates between octets. -/
def host_max (address wildcard : String) : Option String :=
  let tmpAddr := pySplit address '.'
  let tmpWild := pySplit wildcard '.'
  if h : 3 < tmpWild.length then
    (pyInt? (tmpWild.get ⟨3, h⟩)).bind fun w3 =>
      (tmpAddr.mapM pyInt?).bind fun a =>
        ((tmpWild.set 3 (toString w3)).mapM pyInt?).map fun w =>
          list_to_string_nat (List.zipWith (· + ·) a w)
  else none

/-- `reduce(operator.mul, l)`: no initial value, so the empty list raises
(`none`). -/
def reduce_mul : List Nat → Option Nat
  | [] => none
  | x :: xs => some (xs.foldl (· * ·) x)

/-- `num_hosts(wildcard)`: `len(range(0, e + 1))` is `e + 1` for each octet
`e`, their product is floored at 1. -/
def num_hosts (wildcard : String) : Option Nat :=
  ((pySplit wildcard '.').mapM pyInt?).bind fun w =>
    (reduce_mul (w.map fun e => e + 1)).map fun n => if 0 < n then n else 1

/-- `itertools.product(*ranges)` specialised to integer lists: the first
factor varies slowest, the last fastest. -/
def cart_prod : List (List Nat) → List (List Nat)
  | [] => [[]]
  | r :: rs => r.flatMap fun x => (cart_prod rs).map fun t => x :: t

/-- `get_ip_list(hostmin, hostmax)`: per-octet ranges `range(i, j + 1)`
(empty when `j < i`), their Cartesian product, each tuple joined with dots.
The source accumulates the complete list eagerly. -/
def get_ip_list (hostmin hostmax : String) : Option (List String) :=
  ((pySplit hostmin '.').mapM pyInt?).bind fun mins =>
    ((pySplit hostmax '.').mapM pyInt?).map fun maxs =>
      (cart_prod (List.zipWith (fun i j => List.range' i (j + 1 - i)) mins maxs)).map
        list_to_string_nat

/-- The attributes a `CIDR` object can carry after `__init__` ran.  A `none`
field models a Python attribute that was never assigned because an earlier
statement of the constructor raised.  `binBase` keeps the parsed octet
values (see the header note on `address_to_bin`). -/
structure State where
  base : Option String := none
  netmask : Option String := none
  wildcard : Option String := none
  binBase : Option (List Nat) := none
  subnet : Option String := none
  hostmin : Option String := none
  hostmax : Option String := none
  total : Option Nat := none
  broadcast : Option String := none
  allips : Option (List String) := none
  deriving DecidableEq

/-- The body of `__init__` after the `index('/')` slicing succeeded: the
assignments run in source order and stop at the first raising statement
(the surrounding `try` block catches and prints the exception, leaving the
attributes assigned so far). -/
def initParts (base intMask : String) : State :=
  let s0 : State := { base := some base }
  match calculate_netmask intMask with
  | none => s0
  | some nm =>
    let s1 := { s0 with netmask := some nm }
    match calculate_wildcard intMask with
    | none => s1
    | some wc =>
      let s2 := { s1 with wildcard := some wc }
      match address_to_bin base with
      | none => s2
      | some bb =>
        let s3 := { s2 with binBase := some bb }
        match network base nm with
        | none => s3
        | some net =>
          let sub := list_to_string_nat net
          let s4 := { s3 with subnet := some sub }
          match host_min sub with
          | none => s4
          | some hmin =>
            let s5 := { s4 with hostmin := some hmin }
            match host_max sub wc with
            | none => s5
            | some hmax =>
              let s6 := { s5 with hostmax := some hmax }
              match num_hosts wc with
              | none => s6
              | some tot =>
                let s7 := { s6 with total := some tot }
                match host_min hmax with
                | none => s7
                | some bc =>
                  let s8 := { s7 with broadcast := some bc }
                  match get_ip_list hmin hmax with
                  | none => s8
                  | some ips => { s8 with allips := some ips }

/-- `CIDR.__init__(self, address)`: slice at the first `/` (a missing `/`
raises before any attribute is assigned) and run the derivation chain. -/
def init (address : String) : State :=
  match sliceAtSlash address with
  | none => {}
  | some (base, intMask) => initParts base intMask

/-- The 32-bit value of a four-octet list, most significant octet first. -/
def octetsVal (l : List Nat) : Nat := l.foldl (fun acc o => 256 * acc + o) 0

/-- The nine octet values a netmask octet can take. -/
def maskVals : List Nat := [0, 128, 192, 224, 240, 248, 252, 254, 255]

/-- The per-octet (first element, span) pairs describing the enumeration
ranges: `rangesOf ps` is the list of ranges `[p.1, p.1 + p.2]`. -/
def rangesOf (ps : List (Nat × Nat)) : List (List Nat) :=
  ps.map fun p => List.range' p.1 (p.2 + 1)

end CIDR

namespace CIDR

theorem netmask_octets_shape : ∀ m < 33, (netmask_octets m).length = 4 ∧
    ∀ n ∈ netmask_octets m, n ∈ maskVals := by decide

theorem maskVals_le : ∀ n ∈ maskVals, n ≤ 255 := by decide

/-- Per-octet bit facts: ANDing with a netmask octet stays below 256, adding
the complementary wildcard octet to the masked value neither overflows an
octet nor differs from bitwise OR, and masking is idempotent. -/
theorem octet_facts : ∀ n ∈ maskVals, ∀ x < 256,
    x &&& n ≤ 255 ∧ (x &&& n) + (255 - n) ≤ 255 ∧
    (x &&& n) + (255 - n) = (x &&& n) ||| (255 - n) ∧
    (x &&& n) &&& n = x &&& n := by decide

theorem pyInt_toString : ∀ n < 256, pyInt? (toString n) = some n := by decide

theorem toString_no_dot : ∀ n < 256, ∀ c ∈ (toString n).data, c ≠ '.' := by decide

theorem exists_four {α : Type} {l : List α} (h : l.length = 4) :
    ∃ x0 x1 x2 x3, l = [x0, x1, x2, x3] := by
  obtain - | ⟨x0, l⟩ := l; · simp at h
  obtain - | ⟨x1, l⟩ := l; · simp at h
  obtain - | ⟨x2, l⟩ := l; · simp at h
  obtain - | ⟨x3, l⟩ := l; · simp at h
  obtain - | ⟨x4, l⟩ := l
  · exact ⟨x0, x1, x2, x3, rfl⟩
  · simp at h

/-- The netmask octet list for a prefix length of at most 32, decomposed. -/
theorem netmask_octets_eq {m : Nat} (hm : m ≤ 32) :
    ∃ n0 n1 n2 n3, netmask_octets m = [n0, n1, n2, n3] ∧
      n0 ∈ maskVals ∧ n1 ∈ maskVals ∧ n2 ∈ maskVals ∧ n3 ∈ maskVals := by
  have h := netmask_octets_shape m (by omega)
  obtain ⟨n0, n1, n2, n3, hl⟩ := exists_four h.1
  refine ⟨n0, n1, n2, n3, hl, ?_, ?_, ?_, ?_⟩ <;>
    · apply h.2; rw [hl]; simp

theorem splitCharAux_append (sep : Char) (cs : List Char)
    (h : ∀ c ∈ cs, c ≠ sep) :
    ∀ l acc : List Char,
      splitCharAux sep (cs ++ l) acc = splitCharAux sep l (cs.reverse ++ acc) := by
  induction cs with
  | nil => intro l acc; rfl
  | cons c cs ih =>
    intro l acc
    have hc : c ≠ sep := h c (List.mem_cons_self c cs)
    have h2 := ih (fun x hx => h x (List.mem_cons_of_mem c hx)) l (c :: acc)
    simp only [List.cons_append, splitCharAux, if_neg hc, List.append_eq, h2,
      List.reverse_cons, List.append_assoc, List.singleton_append,
      List.nil_append]

theorem pySplit_no_sep (p : String) (sep : Char) (h : ∀ c ∈ p.data, c ≠ sep) :
    pySplit p sep = [p] := by
  have h2 := splitCharAux_append sep p.data h [] []
  simp only [List.append_nil] at h2
  unfold pySplit
  rw [h2]
  simp [splitCharAux]

theorem pySplit_join (parts : List String) (hne : parts ≠ [])
    (h : ∀ p ∈ parts, ∀ c ∈ p.data, c ≠ '.') :
    pySplit (pyJoin "." parts) '.' = parts := by
  induction parts with
  | nil => exact absurd rfl hne
  | cons p ps ih =>
    cases ps with
    | nil => exact pySplit_no_sep p '.' (h p (List.mem_cons_self p []))
    | cons q qs =>
      have hp : ∀ c ∈ p.data, c ≠ '.' := h p (List.mem_cons_self p (q :: qs))
      show splitCharAux '.' (p ++ "." ++ pyJoin "." (q :: qs)).data [] = _
      rw [String.data_append, String.data_append]
      have hdot : ("." : String).data = ['.'] := rfl
      rw [hdot, List.append_assoc, List.singleton_append,
        splitCharAux_append '.' p.data hp, List.append_nil]
      have ihq := ih (by simp) fun x hx => h x (List.mem_cons_of_mem p hx)
      simp only [splitCharAux]
      rw [if_pos trivial]
      simp only [List.reverse_reverse]
      show p :: pySplit (pyJoin "." (q :: qs)) '.' = _
      rw [ihq]

theorem pySplit_list_to_string_nat (l : List Nat) (hne : l ≠ [])
    (h : ∀ n ∈ l, n < 256) :
    pySplit (list_to_string_nat l) '.' = l.map toString := by
  unfold list_to_string_nat
  refine pySplit_join (l.map toString) (by simpa using hne) ?_
  intro p hp
  obtain ⟨n, hn, rfl⟩ := List.mem_map.1 hp
  exact toString_no_dot n (h n hn)

theorem mapM_loop_pyInt (l : List Nat) (h : ∀ n ∈ l, n < 256) :
    ∀ acc : List Nat,
      List.mapM.loop pyInt? (l.map toString) acc = some (acc.reverse ++ l) := by
  induction l with
  | nil => intro acc; simp [List.mapM.loop]
  | cons x xs ih =>
    intro acc
    have hx := pyInt_toString x (h x (List.mem_cons_self x xs))
    have h2 := ih (fun n hn => h n (List.mem_cons_of_mem x hn)) (x :: acc)
    simp only [List.map_cons, List.mapM.loop, hx, Option.bind_eq_bind,
      Option.some_bind, h2, List.reverse_cons, List.append_assoc,
      List.singleton_append]

theorem mapM_pyInt_toString (l : List Nat) (h : ∀ n ∈ l, n < 256) :
    (l.map toString).mapM pyInt? = some l := by
  have h2 := mapM_loop_pyInt l h []
  simpa [List.mapM] using h2

theorem address_to_bin_round (l : List Nat) (hne : l ≠ [])
    (h : ∀ n ∈ l, n < 256) :
    address_to_bin (list_to_string_nat l) = some l := by
  unfold address_to_bin
  rw [pySplit_list_to_string_nat l hne h, mapM_pyInt_toString l h]

theorem calculate_netmask_eval (m : Nat) (hm : m < 256) :
    calculate_netmask (toString m) =
      some (list_to_string_nat (netmask_octets m)) := by
  unfold calculate_netmask
  rw [pyInt_toString m hm]
  rfl

theorem calculate_wildcard_eval (m : Nat) (hm : m < 256) :
    calculate_wildcard (toString m) =
      some (list_to_string_nat (wildcard_octets m)) := by
  unfold calculate_wildcard
  rw [pyInt_toString m hm]
  rfl

theorem network_eval (l1 l2 : List Nat) (h1ne : l1 ≠ []) (h2ne : l2 ≠ [])
    (h1 : ∀ n ∈ l1, n < 256) (h2 : ∀ n ∈ l2, n < 256) :
    network (list_to_string_nat l1) (list_to_string_nat l2) =
      some (List.zipWith (· &&& ·) l1 l2) := by
  unfold network
  rw [address_to_bin_round l1 h1ne h1, address_to_bin_round l2 h2ne h2]
  rfl

theorem host_min_eval (x0 x1 x2 x3 : Nat) (h0 : x0 < 256) (h1 : x1 < 256)
    (h2 : x2 < 256) (h3 : x3 < 256) :
    host_min (list_to_string_nat [x0, x1, x2, x3]) =
      some (list_to_string_nat [x0, x1, x2, x3]) := by
  unfold host_min
  rw [pySplit_list_to_string_nat [x0, x1, x2, x3] (by simp) (by simp_all)]
  simp only [List.map_cons, List.map_nil, List.length_cons, List.length_nil]
  rw [dif_pos (by omega)]
  simp only [List.get, pyInt_toString x3 h3, Option.map_some, List.set]
  rfl

theorem host_max_eval (s0 s1 s2 s3 w0 w1 w2 w3 : Nat)
    (hs0 : s0 < 256) (hs1 : s1 < 256) (hs2 : s2 < 256) (hs3 : s3 < 256)
    (hw0 : w0 < 256) (hw1 : w1 < 256) (hw2 : w2 < 256) (hw3 : w3 < 256) :
    host_max (list_to_string_nat [s0, s1, s2, s3])
        (list_to_string_nat [w0, w1, w2, w3]) =
      some (list_to_string_nat [s0 + w0, s1 + w1, s2 + w2, s3 + w3]) := by
  unfold host_max
  rw [pySplit_list_to_string_nat [s0, s1, s2, s3] (by simp) (by simp_all),
    pySplit_list_to_string_nat [w0, w1, w2, w3] (by simp) (by simp_all)]
  simp only [List.map_cons, List.map_nil, List.length_cons, List.length_nil]
  rw [dif_pos (by omega)]
  simp only [List.get, pyInt_toString w3 hw3, Option.bind_eq_bind,
    Option.some_bind, List.set]
  rw [show ([toString s0, toString s1, toString s2, toString s3].mapM pyInt?) =
      some [s0, s1, s2, s3] from mapM_pyInt_toString [s0, s1, s2, s3] (by simp_all)]
  rw [show ([toString w0, toString w1, toString w2, toString w3].mapM pyInt?) =
      some [w0, w1, w2, w3] from mapM_pyInt_toString [w0, w1, w2, w3] (by simp_all)]
  rfl

theorem num_hosts_eval (w0 w1 w2 w3 : Nat) (hw0 : w0 < 256) (hw1 : w1 < 256)
    (hw2 : w2 < 256) (hw3 : w3 < 256) :
    num_hosts (list_to_string_nat [w0, w1, w2, w3]) =
      some ((w0 + 1) * (w1 + 1) * (w2 + 1) * (w3 + 1)) := by
  unfold num_hosts
  rw [pySplit_list_to_string_nat [w0, w1, w2, w3] (by simp) (by simp_all),
    mapM_pyInt_toString [w0, w1, w2, w3] (by simp_all)]
  have hpos : 0 < (w0 + 1) * (w1 + 1) * (w2 + 1) * (w3 + 1) := by positivity
  simp only [Option.bind_eq_bind, Option.some_bind, List.map_cons, List.map_nil,
    reduce_mul, List.foldl]
  simp [hpos]

theorem get_ip_list_eval (i0 i1 i2 i3 j0 j1 j2 j3 : Nat)
    (hi0 : i0 < 256) (hi1 : i1 < 256) (hi2 : i2 < 256) (hi3 : i3 < 256)
    (hj0 : j0 < 256) (hj1 : j1 < 256) (hj2 : j2 < 256) (hj3 : j3 < 256) :
    get_ip_list (list_to_string_nat [i0, i1, i2, i3])
        (list_to_string_nat [j0, j1, j2, j3]) =
      some ((cart_prod [List.range' i0 (j0 + 1 - i0), List.range' i1 (j1 + 1 - i1),
          List.range' i2 (j2 + 1 - i2), List.range' i3 (j3 + 1 - i3)]).map
        list_to_string_nat) := by
  unfold get_ip_list
  rw [pySplit_list_to_string_nat [i0, i1, i2, i3] (by simp) (by simp_all),
    pySplit_list_to_string_nat [j0, j1, j2, j3] (by simp) (by simp_all),
    mapM_pyInt_toString [i0, i1, i2, i3] (by simp_all),
    mapM_pyInt_toString [j0, j1, j2, j3] (by simp_all)]
  rfl

/-- Full symbolic evaluation of the constructor body on a valid dotted-quad
base address and prefix length: every derivation step succeeds and the
resulting attributes are as listed. -/
theorem initParts_spec (a b c d m n0 n1 n2 n3 : Nat)
    (ha : a ≤ 255) (hb : b ≤ 255) (hc : c ≤ 255) (hd : d ≤ 255) (hm : m ≤ 32)
    (hn : netmask_octets m = [n0, n1, n2, n3])
    (h0 : n0 ∈ maskVals) (h1 : n1 ∈ maskVals) (h2 : n2 ∈ maskVals)
    (h3 : n3 ∈ maskVals) :
    initParts (list_to_string_nat [a, b, c, d]) (toString m) =
      { base := some (list_to_string_nat [a, b, c, d]),
        netmask := some (list_to_string_nat [n0, n1, n2, n3]),
        wildcard := some (list_to_string_nat
          [255 - n0, 255 - n1, 255 - n2, 255 - n3]),
        binBase := some [a, b, c, d],
        subnet := some (list_to_string_nat
          [a &&& n0, b &&& n1, c &&& n2, d &&& n3]),
        hostmin := some (list_to_string_nat
          [a &&& n0, b &&& n1, c &&& n2, d &&& n3]),
        hostmax := some (list_to_string_nat
          [(a &&& n0) + (255 - n0), (b &&& n1) + (255 - n1),
           (c &&& n2) + (255 - n2), (d &&& n3) + (255 - n3)]),
        total := some ((255 - n0 + 1) * (255 - n1 + 1) * (255 - n2 + 1) *
          (255 - n3 + 1)),
        broadcast := some (list_to_string_nat
          [(a &&& n0) + (255 - n0), (b &&& n1) + (255 - n1),
           (c &&& n2) + (255 - n2), (d &&& n3) + (255 - n3)]),
        allips := some ((cart_prod
          [List.range' (a &&& n0) (255 - n0 + 1),
           List.range' (b &&& n1) (255 - n1 + 1),
           List.range' (c &&& n2) (255 - n2 + 1),
           List.range' (d &&& n3) (255 - n3 + 1)]).map list_to_string_nat) } := by
  have hm256 : m < 256 := by omega
  have f0 := octet_facts n0 h0 a (by omega)
  have f1 := octet_facts n1 h1 b (by omega)
  have f2 := octet_facts n2 h2 c (by omega)
  have f3 := octet_facts n3 h3 d (by omega)
  have hw : wildcard_octets m = [255 - n0, 255 - n1, 255 - n2, 255 - n3] := by
    rw [wildcard_octets, hn]; rfl
  have habin : address_to_bin (list_to_string_nat [a, b, c, d]) =
      some [a, b, c, d] :=
    address_to_bin_round [a, b, c, d] (by simp) (by simp_all; omega)
  have hnet : network (list_to_string_nat [a, b, c, d])
      (list_to_string_nat [n0, n1, n2, n3]) =
      some [a &&& n0, b &&& n1, c &&& n2, d &&& n3] := by
    rw [network_eval [a, b, c, d] [n0, n1, n2, n3] (by simp) (by simp)
      (by simp_all; omega)
      (by have b0 := maskVals_le n0 h0; have b1 := maskVals_le n1 h1
          have b2 := maskVals_le n2 h2; have b3 := maskVals_le n3 h3
          simp_all; omega)]
    rfl
  have hhmin : host_min (list_to_string_nat
      [a &&& n0, b &&& n1, c &&& n2, d &&& n3]) =
      some (list_to_string_nat [a &&& n0, b &&& n1, c &&& n2, d &&& n3]) :=
    host_min_eval (a &&& n0) (b &&& n1) (c &&& n2) (d &&& n3)
      (by omega) (by omega) (by omega) (by omega)
  have hhmax : host_max (list_to_string_nat
      [a &&& n0, b &&& n1, c &&& n2, d &&& n3])
      (list_to_string_nat [255 - n0, 255 - n1, 255 - n2, 255 - n3]) =
      some (list_to_string_nat
        [(a &&& n0) + (255 - n0), (b &&& n1) + (255 - n1),
         (c &&& n2) + (255 - n2), (d &&& n3) + (255 - n3)]) :=
    host_max_eval (a &&& n0) (b &&& n1) (c &&& n2) (d &&& n3)
      (255 - n0) (255 - n1) (255 - n2) (255 - n3)
      (by omega) (by omega) (by omega) (by omega)
      (by omega) (by omega) (by omega) (by omega)
  have htot : num_hosts (list_to_string_nat
      [255 - n0, 255 - n1, 255 - n2, 255 - n3]) =
      some ((255 - n0 + 1) * (255 - n1 + 1) * (255 - n2 + 1) * (255 - n3 + 1)) :=
    num_hosts_eval (255 - n0) (255 - n1) (255 - n2) (255 - n3)
      (by omega) (by omega) (by omega) (by omega)
  have hbc : host_min (list_to_string_nat
      [(a &&& n0) + (255 - n0), (b &&& n1) + (255 - n1),
       (c &&& n2) + (255 - n2), (d &&& n3) + (255 - n3)]) =
      some (list_to_string_nat
        [(a &&& n0) + (255 - n0), (b &&& n1) + (255 - n1),
         (c &&& n2) + (255 - n2), (d &&& n3) + (255 - n3)]) :=
    host_min_eval ((a &&& n0) + (255 - n0)) ((b &&& n1) + (255 - n1))
      ((c &&& n2) + (255 - n2)) ((d &&& n3) + (255 - n3))
      (by omega) (by omega) (by omega) (by omega)
  have hips : get_ip_list (list_to_string_nat
      [a &&& n0, b &&& n1, c &&& n2, d &&& n3])
      (list_to_string_nat
        [(a &&& n0) + (255 - n0), (b &&& n1) + (255 - n1),
         (c &&& n2) + (255 - n2), (d &&& n3) + (255 - n3)]) =
      some ((cart_prod
        [List.range' (a &&& n0) (255 - n0 + 1),
         List.range' (b &&& n1) (255 - n1 + 1),
         List.range' (c &&& n2) (255 - n2 + 1),
         List.range' (d &&& n3) (255 - n3 + 1)]).map list_to_string_nat) := by
    rw [get_ip_list_eval (a &&& n0) (b &&& n1) (c &&& n2) (d &&& n3)
      ((a &&& n0) + (255 - n0)) ((b &&& n1) + (255 - n1))
      ((c &&& n2) + (255 - n2)) ((d &&& n3) + (255 - n3))
      (by omega) (by omega) (by omega) (by omega)
      (by omega) (by omega) (by omega) (by omega)]
    rw [show (a &&& n0) + (255 - n0) + 1 - (a &&& n0) = 255 - n0 + 1 by omega,
      show (b &&& n1) + (255 - n1) + 1 - (b &&& n1) = 255 - n1 + 1 by omega,
      show (c &&& n2) + (255 - n2) + 1 - (c &&& n2) = 255 - n2 + 1 by omega,
      show (d &&& n3) + (255 - n3) + 1 - (d &&& n3) = 255 - n3 + 1 by omega]
  simp only [initParts, calculate_netmask_eval m hm256,
    calculate_wildcard_eval m hm256, hn, hw, habin, hnet, hhmin, hhmax, htot,
    hbc, hips]

theorem octetsVal_foldl (t : List Nat) : ∀ a : Nat,
    t.foldl (fun acc o => 256 * acc + o) a = a * 256 ^ t.length + octetsVal t := by
  induction t with
  | nil => intro a; simp [octetsVal]
  | cons y t ih =>
    intro a
    show t.foldl _ (256 * a + y) =
      a * 256 ^ (y :: t).length + octetsVal (y :: t)
    rw [ih (256 * a + y),
      show octetsVal (y :: t) =
        t.foldl (fun acc o => 256 * acc + o) (256 * 0 + y) from rfl,
      ih (256 * 0 + y), List.length_cons]
    ring

theorem octetsVal_cons (y : Nat) (t : List Nat) :
    octetsVal (y :: t) = y * 256 ^ t.length + octetsVal t := by
  show t.foldl _ (256 * 0 + y) = _
  rw [octetsVal_foldl t (256 * 0 + y)]
  ring

theorem octetsVal_lt (t : List Nat) (h : ∀ x ∈ t, x < 256) :
    octetsVal t < 256 ^ t.length := by
  induction t with
  | nil => simp [octetsVal]
  | cons x t ih =>
    rw [octetsVal_cons]
    have hx : x < 256 := h x (List.mem_cons_self x t)
    have ht := ih fun y hy => h y (List.mem_cons_of_mem x hy)
    calc x * 256 ^ t.length + octetsVal t
        < x * 256 ^ t.length + 256 ^ t.length := by omega
      _ = (x + 1) * 256 ^ t.length := by ring
      _ ≤ 256 * 256 ^ t.length := Nat.mul_le_mul_right _ (by omega)
      _ = 256 ^ (x :: t).length := by rw [List.length_cons]; ring

/-- Bitwise OR distributes over base-256 digit concatenation. -/
theorem lor_concat8 (a c : Nat) {b d : Nat} (hb : b < 256) (hd : d < 256) :
    (256 * a + b) ||| (256 * c + d) = 256 * (a ||| c) + (b ||| d) := by
  have h8 : (256 : Nat) = 2 ^ 8 := by norm_num
  rw [h8] at hb hd ⊢
  have hbd : b ||| d < 2 ^ 8 := Nat.or_lt_two_pow hb hd
  apply Nat.eq_of_testBit_eq
  intro j
  rw [Nat.testBit_lor, Nat.testBit_mul_pow_two_add a hb j,
    Nat.testBit_mul_pow_two_add c hd j,
    Nat.testBit_mul_pow_two_add (a ||| c) hbd j]
  by_cases hj : j < 8
  · simp [hj, Nat.testBit_lor]
  · simp [hj, Nat.testBit_lor]

theorem octetsVal_quad (x0 x1 x2 x3 : Nat) :
    octetsVal [x0, x1, x2, x3] =
      256 * (256 * (256 * x0 + x1) + x2) + x3 := by
  simp [octetsVal, List.foldl]

theorem octetsVal_lor (a0 a1 a2 a3 b0 b1 b2 b3 : Nat)
    (ha1 : a1 < 256) (ha2 : a2 < 256) (ha3 : a3 < 256)
    (hb1 : b1 < 256) (hb2 : b2 < 256) (hb3 : b3 < 256) :
    octetsVal [a0, a1, a2, a3] ||| octetsVal [b0, b1, b2, b3] =
      octetsVal [a0 ||| b0, a1 ||| b1, a2 ||| b2, a3 ||| b3] := by
  rw [octetsVal_quad, octetsVal_quad, octetsVal_quad]
  rw [lor_concat8 _ _ ha3 hb3, lor_concat8 _ _ ha2 hb2, lor_concat8 _ _ ha1 hb1]

theorem length_flatMap_const {α β : Type} (l : List α) (f : α → List β) (k : Nat)
    (h : ∀ x ∈ l, (f x).length = k) : (l.flatMap f).length = l.length * k := by
  induction l with
  | nil => simp
  | cons x l ih =>
    rw [List.flatMap_cons, List.length_append, h x (List.mem_cons_self x l),
      ih fun y hy => h y (List.mem_cons_of_mem x hy), List.length_cons]
    ring

theorem cart_prod_length : ∀ ls : List (List Nat),
    (cart_prod ls).length = (ls.map List.length).prod := by
  intro ls
  induction ls with
  | nil => rfl
  | cons r ls ih =>
    show (r.flatMap fun x => (cart_prod ls).map fun t => x :: t).length = _
    rw [length_flatMap_const r _ (cart_prod ls).length fun x _ =>
      List.length_map (cart_prod ls) fun t => x :: t]
    rw [ih, List.map_cons, List.prod_cons]

theorem cart_prod_ne_nil : ∀ ls : List (List Nat),
    (∀ l ∈ ls, l ≠ []) → cart_prod ls ≠ [] := by
  intro ls
  induction ls with
  | nil => intro h; simp [cart_prod]
  | cons r ls ih =>
    intro h
    have hr : r ≠ [] := h r (List.mem_cons_self r ls)
    have hrest := ih fun l hl => h l (List.mem_cons_of_mem r hl)
    obtain - | ⟨x, r⟩ := r
    · exact absurd rfl hr
    · show (((x :: r).flatMap fun x => (cart_prod ls).map fun t => x :: t)) ≠ []
      rw [List.flatMap_cons]
      simp [List.append_eq_nil, hrest]

theorem cart_prod_mem_length : ∀ (ls : List (List Nat)) (t : List Nat),
    t ∈ cart_prod ls → t.length = ls.length := by
  intro ls
  induction ls with
  | nil => intro t ht; simp [cart_prod] at ht; simp [ht]
  | cons r ls ih =>
    intro t ht
    show t.length = ls.length + 1
    obtain ⟨x, -, u, hu, rfl⟩ : ∃ x ∈ r, ∃ u ∈ cart_prod ls, x :: u = t := by
      simpa [cart_prod, List.mem_flatMap, List.mem_map] using ht
    rw [List.length_cons, ih u hu]

theorem cart_prod_mem_octet : ∀ (ps : List (Nat × Nat)),
    (∀ p ∈ ps, p.1 + p.2 ≤ 255) →
    ∀ t ∈ cart_prod (rangesOf ps), ∀ x ∈ t, x < 256 := by
  intro ps
  induction ps with
  | nil => intro h t ht; simp [rangesOf, cart_prod] at ht; simp [ht]
  | cons q ps ih =>
    intro h t ht
    obtain ⟨x, hx, u, hu, rfl⟩ : ∃ x ∈ List.range' q.1 (q.2 + 1),
        ∃ u ∈ cart_prod (rangesOf ps), x :: u = t := by
      simpa [rangesOf, cart_prod, List.mem_flatMap, List.mem_map] using ht
    intro y hy
    obtain rfl | hy2 := List.mem_cons.1 hy
    · obtain ⟨i, hi, rfl⟩ := List.mem_range'.1 hx
      have := h q (List.mem_cons_self q ps)
      omega
    · exact ih (fun p hp => h p (List.mem_cons_of_mem q hp)) u hu y hy2

theorem cart_prod_rangesOf_head : ∀ ps : List (Nat × Nat),
    (cart_prod (rangesOf ps)).head? = some (ps.map Prod.fst) := by
  intro ps
  induction ps with
  | nil => rfl
  | cons q ps ih =>
    show ((List.range' q.1 (q.2 + 1)).flatMap fun x =>
      (cart_prod (rangesOf ps)).map fun t => x :: t).head? = _
    rw [List.range'_succ, List.flatMap_cons]
    have hne : ((cart_prod (rangesOf ps)).map fun t => q.1 :: t) ≠ [] := by
      simp only [ne_eq, List.map_eq_nil_iff]
      exact cart_prod_ne_nil (rangesOf ps) fun l hl => by
        obtain ⟨p, -, rfl⟩ := List.mem_map.1 hl
        simp
    rw [List.head?_append_of_ne_nil _ hne, List.head?_map, ih]
    rfl

theorem getLast?_some_of_ne_nil {α : Type} {l : List α} (h : l ≠ []) :
    ∃ y, l.getLast? = some y := by
  induction l with
  | nil => exact absurd rfl h
  | cons x l ih =>
    cases l with
    | nil => exact ⟨x, rfl⟩
    | cons z t =>
      obtain ⟨y, hy⟩ := ih (by simp)
      exact ⟨y, by rw [List.getLast?_cons_cons, hy]⟩

theorem flatMap_range'_getLast (f : Nat → List (List Nat))
    (hf : ∀ x, f x ≠ []) : ∀ n s : Nat,
    ((List.range' s (n + 1)).flatMap f).getLast? = (f (s + n)).getLast? := by
  intro n
  induction n with
  | zero => intro s; simp [List.flatMap_cons]
  | succ n ih =>
    intro s
    rw [List.range'_succ, List.flatMap_cons, List.getLast?_append, ih (s + 1),
      show s + 1 + n = s + (n + 1) by omega]
    obtain ⟨y, hy⟩ := getLast?_some_of_ne_nil (hf (s + (n + 1)))
    rw [hy, Option.or_some]

theorem cart_prod_rangesOf_getLast : ∀ ps : List (Nat × Nat),
    (cart_prod (rangesOf ps)).getLast? = some (ps.map fun p => p.1 + p.2) := by
  intro ps
  induction ps with
  | nil => rfl
  | cons q ps ih =>
    show ((List.range' q.1 (q.2 + 1)).flatMap fun x =>
      (cart_prod (rangesOf ps)).map fun t => x :: t).getLast? = _
    have hne : ∀ x : Nat, ((cart_prod (rangesOf ps)).map fun t => x :: t) ≠ [] := by
      intro x
      simp only [ne_eq, List.map_eq_nil_iff]
      exact cart_prod_ne_nil (rangesOf ps) fun l hl => by
        obtain ⟨p, -, rfl⟩ := List.mem_map.1 hl
        simp
    rw [flatMap_range'_getLast _ hne q.2 q.1, List.getLast?_map, ih]
    rfl

theorem pairwise_lt_range1 : ∀ n s : Nat,
    List.Pairwise (· < ·) (List.range' s n) := by
  intro n
  induction n with
  | zero => intro s; simp
  | succ n ih =>
    intro s
    rw [List.range'_succ]
    refine List.Pairwise.cons ?_ (ih (s + 1))
    intro m hm
    obtain ⟨i, hi, rfl⟩ := List.mem_range'.1 hm
    omega

/-- The enumeration tuples are strictly increasing as 32-bit values. -/
theorem cart_prod_rangesOf_pairwise : ∀ ps : List (Nat × Nat),
    (∀ p ∈ ps, p.1 + p.2 ≤ 255) →
    List.Pairwise (fun t u => octetsVal t < octetsVal u)
      (cart_prod (rangesOf ps)) := by
  intro ps
  induction ps with
  | nil => intro h; simp [rangesOf, cart_prod]
  | cons q ps ih =>
    intro h
    have hps := fun p hp => h p (List.mem_cons_of_mem q hp)
    have hlen : ∀ t ∈ cart_prod (rangesOf ps), t.length = ps.length := by
      intro t ht
      rw [cart_prod_mem_length (rangesOf ps) t ht, rangesOf, List.length_map]
    have hbound : ∀ t ∈ cart_prod (rangesOf ps),
        octetsVal t < 256 ^ ps.length := by
      intro t ht
      have := octetsVal_lt t (cart_prod_mem_octet ps hps t ht)
      rwa [hlen t ht] at this
    show List.Pairwise _ ((List.range' q.1 (q.2 + 1)).flatMap fun x =>
      (cart_prod (rangesOf ps)).map fun t => x :: t)
    rw [List.pairwise_flatMap]
    constructor
    · intro x _
      rw [List.pairwise_map]
      refine (ih hps).imp_of_mem ?_
      intro t u ht hu htu
      rw [octetsVal_cons, octetsVal_cons, hlen t ht, hlen u hu]
      omega
    · refine (pairwise_lt_range1 (q.2 + 1) q.1).imp ?_
      intro x y hxy t1 ht1 u1 hu1
      obtain ⟨t, ht, rfl⟩ := List.mem_map.1 ht1
      obtain ⟨u, hu, rfl⟩ := List.mem_map.1 hu1
      rw [octetsVal_cons, octetsVal_cons, hlen t ht, hlen u hu]
      have hb := hbound t ht
      have hstep : (x + 1) * 256 ^ ps.length ≤ y * 256 ^ ps.length :=
        Nat.mul_le_mul_right _ (by omega)
      calc x * 256 ^ ps.length + octetsVal t
          < (x + 1) * 256 ^ ps.length := by
            have : x * 256 ^ ps.length + 256 ^ ps.length =
              (x + 1) * 256 ^ ps.length := by ring
            omega
        _ ≤ y * 256 ^ ps.length := hstep
        _ ≤ y * 256 ^ ps.length + octetsVal u := Nat.le_add_right _ _

/-- The netmask and wildcard values for every prefix length up to 32: the
netmask is the 32-bit word with the top m bits set, the wildcard its 32-bit
complement, their OR all-ones. -/
theorem netmask_value_facts : ∀ m < 33,
    octetsVal (netmask_octets m) = 2 ^ 32 - 2 ^ (32 - m) ∧
    octetsVal (wildcard_octets m) = 2 ^ 32 - 1 - (2 ^ 32 - 2 ^ (32 - m)) ∧
    octetsVal (netmask_octets m) ||| octetsVal (wildcard_octets m) =
      2 ^ 32 - 1 ∧
    ∀ i < 32, ((octetsVal (netmask_octets m)).testBit i = true ↔ 32 - m ≤ i) := by
  decide

end CIDR



/-- Claim C1: for the input string "192.168.0.2/24", construction yields
exactly Base=192.168.0.2, Netmask=255.255.255.0, Wildcard=0.0.0.255,
Subnet ID=192.168.0.0, Host min=192.168.0.0, Host max=192.168.0.255,
Broadcast=192.168.0.255, Total Hosts=256; and for the input "10.0.0.5/30"
it yields Netmask=255.255.255.252, Wildcard=0.0.0.3, Subnet ID=10.0.0.4,
Host max=10.0.0.7, Total Hosts=4. -/
theorem claim_C1 :
    ((CIDR.init "192.168.0.2/24").base = some "192.168.0.2" ∧
      (CIDR.init "192.168.0.2/24").netmask = some "255.255.255.0" ∧
      (CIDR.init "192.168.0.2/24").wildcard = some "0.0.0.255" ∧
      (CIDR.init "192.168.0.2/24").subnet = some "192.168.0.0" ∧
      (CIDR.init "192.168.0.2/24").hostmin = some "192.168.0.0" ∧
      (CIDR.init "192.168.0.2/24").hostmax = some "192.168.0.255" ∧
      (CIDR.init "192.168.0.2/24").broadcast = some "192.168.0.255" ∧
      (CIDR.init "192.168.0.2/24").total = some 256) ∧
    ((CIDR.init "10.0.0.5/30").netmask = some "255.255.255.252" ∧
      (CIDR.init "10.0.0.5/30").wildcard = some "0.0.0.3" ∧
      (CIDR.init "10.0.0.5/30").subnet = some "10.0.0.4" ∧
      (CIDR.init "10.0.0.5/30").hostmax = some "10.0.0.7" ∧
      (CIDR.init "10.0.0.5/30").total = some 4) := by
  decide

/-- Claim C4: for every wildcard whose four octets are each at most 255, the
host count is the product of the per-octet values plus one and is at least 1;
the /24, /16, /32 and /0 wildcards give 256, 65536, 1 and 4294967296. -/
theorem claim_C4 (w0 w1 w2 w3 : Nat) (h0 : w0 ≤ 255) (h1 : w1 ≤ 255)
    (h2 : w2 ≤ 255) (h3 : w3 ≤ 255) :
    CIDR.num_hosts (CIDR.list_to_string_nat [w0, w1, w2, w3]) =
      some ((w0 + 1) * (w1 + 1) * (w2 + 1) * (w3 + 1)) ∧
    1 ≤ (w0 + 1) * (w1 + 1) * (w2 + 1) * (w3 + 1) ∧
    CIDR.num_hosts (CIDR.list_to_string_nat (CIDR.wildcard_octets 24)) =
      some 256 ∧
    CIDR.num_hosts (CIDR.list_to_string_nat (CIDR.wildcard_octets 16)) =
      some 65536 ∧
    CIDR.num_hosts (CIDR.list_to_string_nat (CIDR.wildcard_octets 32)) =
      some 1 ∧
    CIDR.num_hosts (CIDR.list_to_string_nat (CIDR.wildcard_octets 0)) =
      some 4294967296 :=
  ⟨CIDR.num_hosts_eval w0 w1 w2 w3 (by omega) (by omega) (by omega) (by omega),
    by
      have hp : 0 < (w0 + 1) * (w1 + 1) * (w2 + 1) * (w3 + 1) := by positivity
      omega,
    by decide, by decide, by decide, by decide⟩

theorem claim_C4_witness :
    CIDR.num_hosts (CIDR.list_to_string_nat [0, 0, 0, 255]) = some 256 ∧
    1 ≤ (0 + 1) * (0 + 1) * (0 + 1) * (255 + 1) :=
  ⟨(claim_C4 0 0 0 255 (by decide) (by decide) (by decide) (by decide)).1,
    (claim_C4 0 0 0 255 (by decide) (by decide) (by decide) (by decide)).2.1⟩

/-- Claim C6: for every prefix length up to 32, the netmask is the 32-bit
word with exactly the top m bits set (independent of any address: it is a
function of the prefix length alone), the wildcard is its per-octet
255-minus complement, equal to the 32-bit complement in value, and netmask
OR wildcard is all-ones. -/
theorem claim_C6 (m : Nat) (hm : m ≤ 32) :
    CIDR.octetsVal (CIDR.netmask_octets m) = 2 ^ 32 - 2 ^ (32 - m) ∧
    (∀ i < 32, ((CIDR.octetsVal (CIDR.netmask_octets m)).testBit i = true ↔
      32 - m ≤ i)) ∧
    CIDR.wildcard_octets m = (CIDR.netmask_octets m).map (255 - ·) ∧
    CIDR.octetsVal (CIDR.wildcard_octets m) =
      2 ^ 32 - 1 - CIDR.octetsVal (CIDR.netmask_octets m) ∧
    CIDR.octetsVal (CIDR.netmask_octets m) |||
      CIDR.octetsVal (CIDR.wildcard_octets m) = 2 ^ 32 - 1 := by
  obtain ⟨v1, v2, v3, v4⟩ := CIDR.netmask_value_facts m (by omega)
  exact ⟨v1, v4, rfl, by rw [v2, v1], by rw [v3]⟩

theorem claim_C6_witness :
    CIDR.octetsVal (CIDR.netmask_octets 24) = 2 ^ 32 - 2 ^ (32 - 24) ∧
    (∀ i < 32, ((CIDR.octetsVal (CIDR.netmask_octets 24)).testBit i = true ↔
      32 - 24 ≤ i)) ∧
    CIDR.wildcard_octets 24 = (CIDR.netmask_octets 24).map (255 - ·) ∧
    CIDR.octetsVal (CIDR.wildcard_octets 24) =
      2 ^ 32 - 1 - CIDR.octetsVal (CIDR.netmask_octets 24) ∧
    CIDR.octetsVal (CIDR.netmask_octets 24) |||
      CIDR.octetsVal (CIDR.wildcard_octets 24) = 2 ^ 32 - 1 :=
  claim_C6 24 (by decide)

/-- Claim C8 counterexample: the claim asserts that construction fails for
"300.1.1.1/24" (InvalidOctet) and for "10.0.0.1/33" (InvalidPrefixLength);
in fact neither input makes any constructor step raise, so the final
attribute is assigned in both cases. -/
theorem claim_C8_counterexample :
    ¬ ((CIDR.init "300.1.1.1/24").allips = none ∨
      (CIDR.init "10.0.0.1/33").allips = none) := by
  decide

/-- Claim C8 amended: the code has no typed errors and accepts both inputs:
"300.1.1.1/24" constructs fully (the out-of-range octet 300 keeps its full
value through the 9-digit binary string, giving subnet 44.1.1.0), and
"10.0.0.1/33" constructs fully with netmask 255.255.255.255 (the 33-bit mask
string is chopped to four octets); a raised exception elsewhere is caught
and printed by the constructor, so the batch loop always continues. -/
theorem claim_C8_amended :
    (CIDR.init "300.1.1.1/24").netmask = some "255.255.255.0" ∧
    (CIDR.init "300.1.1.1/24").subnet = some "44.1.1.0" ∧
    (CIDR.init "300.1.1.1/24").total = some 256 ∧
    (CIDR.init "300.1.1.1/24").allips ≠ none ∧
    (CIDR.init "10.0.0.1/33").netmask = some "255.255.255.255" ∧
    (CIDR.init "10.0.0.1/33").wildcard = some "0.0.0.0" ∧
    (CIDR.init "10.0.0.1/33").subnet = some "10.0.0.1" ∧
    (CIDR.init "10.0.0.1/33").total = some 1 ∧
    (CIDR.init "10.0.0.1/33").allips = some ["10.0.0.1"] := by
  decide

/-- Claim C9 counterexample: construction is not atomic: for the input
"1.2.3.4/abc" the constructor assigns the base attribute, then raises while
parsing the mask, leaving every later attribute unset: the result is neither
fully populated nor empty. -/
theorem claim_C9_counterexample :
    ¬ (((CIDR.init "1.2.3.4/abc").base ≠ none ∧
        (CIDR.init "1.2.3.4/abc").netmask ≠ none ∧
        (CIDR.init "1.2.3.4/abc").wildcard ≠ none ∧
        (CIDR.init "1.2.3.4/abc").binBase ≠ none ∧
        (CIDR.init "1.2.3.4/abc").subnet ≠ none ∧
        (CIDR.init "1.2.3.4/abc").hostmin ≠ none ∧
        (CIDR.init "1.2.3.4/abc").hostmax ≠ none ∧
        (CIDR.init "1.2.3.4/abc").total ≠ none ∧
        (CIDR.init "1.2.3.4/abc").broadcast ≠ none ∧
        (CIDR.init "1.2.3.4/abc").allips ≠ none) ∨
      ((CIDR.init "1.2.3.4/abc").base = none ∧
        (CIDR.init "1.2.3.4/abc").netmask = none ∧
        (CIDR.init "1.2.3.4/abc").wildcard = none ∧
        (CIDR.init "1.2.3.4/abc").binBase = none ∧
        (CIDR.init "1.2.3.4/abc").subnet = none ∧
        (CIDR.init "1.2.3.4/abc").hostmin = none ∧
        (CIDR.init "1.2.3.4/abc").hostmax = none ∧
        (CIDR.init "1.2.3.4/abc").total = none ∧
        (CIDR.init "1.2.3.4/abc").broadcast = none ∧
        (CIDR.init "1.2.3.4/abc").allips = none)) := by
  decide

/-- Claim C9 amended: construction either fully succeeds or stops at the
first raising statement, leaving the attributes assigned so far in place
(the exception is printed, not propagated as a typed error): for
"1.2.3.4/abc" the base attribute is set and all derived attributes are
unset. -/
theorem claim_C9_amended :
    (CIDR.init "1.2.3.4/abc").base = some "1.2.3.4" ∧
    (CIDR.init "1.2.3.4/abc").netmask = none ∧
    (CIDR.init "1.2.3.4/abc").wildcard = none ∧
    (CIDR.init "1.2.3.4/abc").binBase = none ∧
    (CIDR.init "1.2.3.4/abc").subnet = none ∧
    (CIDR.init "1.2.3.4/abc").hostmin = none ∧
    (CIDR.init "1.2.3.4/abc").hostmax = none ∧
    (CIDR.init "1.2.3.4/abc").total = none ∧
    (CIDR.init "1.2.3.4/abc").broadcast = none ∧
    (CIDR.init "1.2.3.4/abc").allips = none := by
  decide

/-- Claim C10 counterexample: the claim asserts the enumeration is lazy,
recomputed on each traversal and never materialized as a whole collection;
in fact the constructor itself computes the complete list eagerly and stores
it in the allips attribute. -/
theorem claim_C10_counterexample :
    ¬ ((CIDR.init "192.168.0.2/24").allips = none) := by
  decide

/-- Claim C10 amended: enumeration is finite and terminates after exactly
the stored host count of elements, but it is materialized eagerly at
construction time and cached in the allips attribute rather than produced
as a lazy restartable sequence. -/
theorem claim_C10_amended (a b c d m : Nat) (ha : a ≤ 255) (hb : b ≤ 255)
    (hc : c ≤ 255) (hd : d ≤ 255) (hm : m ≤ 32) :
    ∃ (ips : List String) (tot : Nat),
      (CIDR.initParts (CIDR.list_to_string_nat [a, b, c, d])
        (toString m)).allips = some ips ∧
      (CIDR.initParts (CIDR.list_to_string_nat [a, b, c, d])
        (toString m)).total = some tot ∧
      ips.length = tot := by
  obtain ⟨n0, n1, n2, n3, hn, h0, h1, h2, h3⟩ := CIDR.netmask_octets_eq hm
  rw [CIDR.initParts_spec a b c d m n0 n1 n2 n3 ha hb hc hd hm hn h0 h1 h2 h3]
  refine ⟨_, _, rfl, rfl, ?_⟩
  rw [List.length_map, CIDR.cart_prod_length]
  simp only [List.map_cons, List.map_nil, List.length_range', List.prod_cons,
    List.prod_nil]
  ring

/-- Claim C2: for every input address whose four octets are each in [0,255]
and every prefix length in [0,32], the broadcast attribute is the same
dotted-decimal string as the hostmax attribute, its 32-bit value is the
bitwise OR of the network address value and the wildcard value, and for
prefix length 32 broadcast, network address, hostmin and hostmax all
coincide. -/
theorem claim_C2 (a b c d m : Nat) (s : CIDR.State)
    (ha : a ≤ 255) (hb : b ≤ 255) (hc : c ≤ 255) (hd : d ≤ 255) (hm : m ≤ 32)
    (hs : s = CIDR.initParts (CIDR.list_to_string_nat [a, b, c, d])
      (toString m)) :
    ∃ net wild bmax : List Nat,
      s.subnet = some (CIDR.list_to_string_nat net) ∧
      s.wildcard = some (CIDR.list_to_string_nat wild) ∧
      s.hostmax = some (CIDR.list_to_string_nat bmax) ∧
      s.broadcast = some (CIDR.list_to_string_nat bmax) ∧
      CIDR.octetsVal bmax = CIDR.octetsVal net ||| CIDR.octetsVal wild ∧
      (m = 32 → s.broadcast = s.subnet ∧ s.subnet = s.hostmin ∧
        s.hostmin = s.hostmax) := by
  obtain ⟨n0, n1, n2, n3, hn, h0, h1, h2, h3⟩ := CIDR.netmask_octets_eq hm
  have f0 := CIDR.octet_facts n0 h0 a (by omega)
  have f1 := CIDR.octet_facts n1 h1 b (by omega)
  have f2 := CIDR.octet_facts n2 h2 c (by omega)
  have f3 := CIDR.octet_facts n3 h3 d (by omega)
  subst hs
  rw [CIDR.initParts_spec a b c d m n0 n1 n2 n3 ha hb hc hd hm hn h0 h1 h2 h3]
  refine ⟨[a &&& n0, b &&& n1, c &&& n2, d &&& n3],
    [255 - n0, 255 - n1, 255 - n2, 255 - n3],
    [(a &&& n0) + (255 - n0), (b &&& n1) + (255 - n1),
     (c &&& n2) + (255 - n2), (d &&& n3) + (255 - n3)],
    rfl, rfl, rfl, rfl, ?_, ?_⟩
  · rw [f0.2.2.1, f1.2.2.1, f2.2.2.1, f3.2.2.1]
    exact (CIDR.octetsVal_lor _ _ _ _ _ _ _ _ (by omega) (by omega) (by omega)
      (by omega) (by omega) (by omega)).symm
  · intro hm32
    subst hm32
    have hn32 : CIDR.netmask_octets 32 = [255, 255, 255, 255] := by decide
    rw [hn32] at hn
    have e0 : (255 : Nat) = n0 := by simpa using congrArg (fun l => l.getD 0 0) hn
    have e1 : (255 : Nat) = n1 := by simpa using congrArg (fun l => l.getD 1 0) hn
    have e2 : (255 : Nat) = n2 := by simpa using congrArg (fun l => l.getD 2 0) hn
    have e3 : (255 : Nat) = n3 := by simpa using congrArg (fun l => l.getD 3 0) hn
    rw [← e0, ← e1, ← e2, ← e3]
    norm_num

theorem claim_C2_witness :
    ∃ net wild bmax : List Nat,
      (CIDR.initParts (CIDR.list_to_string_nat [192, 168, 0, 2])
        (toString 24)).subnet = some (CIDR.list_to_string_nat net) ∧
      (CIDR.initParts (CIDR.list_to_string_nat [192, 168, 0, 2])
        (toString 24)).wildcard = some (CIDR.list_to_string_nat wild) ∧
      (CIDR.initParts (CIDR.list_to_string_nat [192, 168, 0, 2])
        (toString 24)).hostmax = some (CIDR.list_to_string_nat bmax) ∧
      (CIDR.initParts (CIDR.list_to_string_nat [192, 168, 0, 2])
        (toString 24)).broadcast = some (CIDR.list_to_string_nat bmax) ∧
      CIDR.octetsVal bmax = CIDR.octetsVal net ||| CIDR.octetsVal wild ∧
      (24 = 32 →
        (CIDR.initParts (CIDR.list_to_string_nat [192, 168, 0, 2])
          (toString 24)).broadcast =
          (CIDR.initParts (CIDR.list_to_string_nat [192, 168, 0, 2])
            (toString 24)).subnet ∧
        (CIDR.initParts (CIDR.list_to_string_nat [192, 168, 0, 2])
          (toString 24)).subnet =
          (CIDR.initParts (CIDR.list_to_string_nat [192, 168, 0, 2])
            (toString 24)).hostmin ∧
        (CIDR.initParts (CIDR.list_to_string_nat [192, 168, 0, 2])
          (toString 24)).hostmin =
          (CIDR.initParts (CIDR.list_to_string_nat [192, 168, 0, 2])
            (toString 24)).hostmax) :=
  claim_C2 192 168 0 2 24 _ (by decide) (by decide) (by decide) (by decide)
    (by decide) rfl

/-- Claim C3: for every valid input the enumerated address list has length
exactly the total host count, its first element is the hostmin string, its
last element is the hostmax string, and it is the per-octet Cartesian
product (octet 0 varying slowest, octet 3 fastest) of the ranges from the
subnet octets to the hostmax octets, a strictly increasing sequence of
32-bit values. -/
theorem claim_C3 (a b c d m : Nat) (s : CIDR.State)
    (ha : a ≤ 255) (hb : b ≤ 255) (hc : c ≤ 255) (hd : d ≤ 255) (hm : m ≤ 32)
    (hs : s = CIDR.initParts (CIDR.list_to_string_nat [a, b, c, d])
      (toString m)) :
    ∃ (ips : List String) (hmin hmax : String) (tot : Nat)
      (mins maxs : List Nat) (tuples : List (List Nat)),
      s.allips = some ips ∧ s.hostmin = some hmin ∧ s.hostmax = some hmax ∧
      s.total = some tot ∧ s.subnet = some (CIDR.list_to_string_nat mins) ∧
      hmin = CIDR.list_to_string_nat mins ∧
      hmax = CIDR.list_to_string_nat maxs ∧
      tuples = CIDR.cart_prod
        (List.zipWith (fun i j => List.range' i (j + 1 - i)) mins maxs) ∧
      ips = tuples.map CIDR.list_to_string_nat ∧
      ips.length = tot ∧
      ips.head? = some hmin ∧
      ips.getLast? = some hmax ∧
      List.Pairwise (fun t u => CIDR.octetsVal t < CIDR.octetsVal u) tuples := by
  obtain ⟨n0, n1, n2, n3, hn, h0, h1, h2, h3⟩ := CIDR.netmask_octets_eq hm
  have f0 := CIDR.octet_facts n0 h0 a (by omega)
  have f1 := CIDR.octet_facts n1 h1 b (by omega)
  have f2 := CIDR.octet_facts n2 h2 c (by omega)
  have f3 := CIDR.octet_facts n3 h3 d (by omega)
  subst hs
  rw [CIDR.initParts_spec a b c d m n0 n1 n2 n3 ha hb hc hd hm hn h0 h1 h2 h3]
  have hps : ∀ p ∈ [(a &&& n0, 255 - n0), (b &&& n1, 255 - n1),
      (c &&& n2, 255 - n2), (d &&& n3, 255 - n3)], p.1 + p.2 ≤ 255 := by
    simp only [List.mem_cons, List.not_mem_nil, or_false]
    rintro p (rfl | rfl | rfl | rfl)
    · exact f0.2.1
    · exact f1.2.1
    · exact f2.2.1
    · exact f3.2.1
  refine ⟨_, _, _, _, [a &&& n0, b &&& n1, c &&& n2, d &&& n3],
    [(a &&& n0) + (255 - n0), (b &&& n1) + (255 - n1),
     (c &&& n2) + (255 - n2), (d &&& n3) + (255 - n3)],
    CIDR.cart_prod (CIDR.rangesOf [(a &&& n0, 255 - n0), (b &&& n1, 255 - n1),
      (c &&& n2, 255 - n2), (d &&& n3, 255 - n3)]),
    rfl, rfl, rfl, rfl, rfl, rfl, rfl, ?_, rfl, ?_, ?_, ?_, ?_⟩
  · show CIDR.cart_prod _ = CIDR.cart_prod _
    refine congrArg CIDR.cart_prod ?_
    simp only [List.zipWith_cons_cons, List.zipWith_nil_right, CIDR.rangesOf,
      List.map_cons, List.map_nil]
    rw [show (a &&& n0) + (255 - n0) + 1 - (a &&& n0) = 255 - n0 + 1 by omega,
      show (b &&& n1) + (255 - n1) + 1 - (b &&& n1) = 255 - n1 + 1 by omega,
      show (c &&& n2) + (255 - n2) + 1 - (c &&& n2) = 255 - n2 + 1 by omega,
      show (d &&& n3) + (255 - n3) + 1 - (d &&& n3) = 255 - n3 + 1 by omega]
  · rw [List.length_map, CIDR.cart_prod_length]
    simp only [CIDR.rangesOf, List.map_cons, List.map_nil, List.length_range',
      List.prod_cons, List.prod_nil]
    ring
  · have hh := CIDR.cart_prod_rangesOf_head [(a &&& n0, 255 - n0),
      (b &&& n1, 255 - n1), (c &&& n2, 255 - n2), (d &&& n3, 255 - n3)]
    simp only [CIDR.rangesOf, List.map_cons, List.map_nil] at hh
    rw [List.head?_map, hh]
    rfl
  · have hl := CIDR.cart_prod_rangesOf_getLast [(a &&& n0, 255 - n0),
      (b &&& n1, 255 - n1), (c &&& n2, 255 - n2), (d &&& n3, 255 - n3)]
    simp only [CIDR.rangesOf, List.map_cons, List.map_nil] at hl
    rw [List.getLast?_map, hl]
    rfl
  · exact CIDR.cart_prod_rangesOf_pairwise _ hps

theorem claim_C3_witness :
    ∃ (ips : List String) (hmin hmax : String) (tot : Nat)
      (mins maxs : List Nat) (tuples : List (List Nat)),
      (CIDR.initParts (CIDR.list_to_string_nat [10, 0, 0, 5])
        (toString 30)).allips = some ips ∧
      (CIDR.initParts (CIDR.list_to_string_nat [10, 0, 0, 5])
        (toString 30)).hostmin = some hmin ∧
      (CIDR.initParts (CIDR.list_to_string_nat [10, 0, 0, 5])
        (toString 30)).hostmax = some hmax ∧
      (CIDR.initParts (CIDR.list_to_string_nat [10, 0, 0, 5])
        (toString 30)).total = some tot ∧
      (CIDR.initParts (CIDR.list_to_string_nat [10, 0, 0, 5])
        (toString 30)).subnet = some (CIDR.list_to_string_nat mins) ∧
      hmin = CIDR.list_to_string_nat mins ∧
      hmax = CIDR.list_to_string_nat maxs ∧
      tuples = CIDR.cart_prod
        (List.zipWith (fun i j => List.range' i (j + 1 - i)) mins maxs) ∧
      ips = tuples.map CIDR.list_to_string_nat ∧
      ips.length = tot ∧
      ips.head? = some hmin ∧
      ips.getLast? = some hmax ∧
      List.Pairwise (fun t u => CIDR.octetsVal t < CIDR.octetsVal u) tuples :=
  claim_C3 10 0 0 5 30 _ (by decide) (by decide) (by decide) (by decide)
    (by decide) rfl

/-- Claim C5: for every valid address and prefix length, the per-octet
carry-free addition used by host_max never produces an octet above 255 and
agrees octet by octet with the bitwise OR of the network octets and the
wildcard octets (the network octets live in netmask bit positions, the
wildcard octets in the complementary positions), and consequently each
minimum octet is at most the corresponding maximum octet, the precondition
of the range enumeration. -/
theorem claim_C5 (a b c d m : Nat) (ha : a ≤ 255) (hb : b ≤ 255)
    (hc : c ≤ 255) (hd : d ≤ 255) (hm : m ≤ 32) :
    ∃ n0 n1 n2 n3 : Nat, CIDR.netmask_octets m = [n0, n1, n2, n3] ∧
      List.zipWith (· + ·) [a &&& n0, b &&& n1, c &&& n2, d &&& n3]
          [255 - n0, 255 - n1, 255 - n2, 255 - n3] =
        List.zipWith (· ||| ·) [a &&& n0, b &&& n1, c &&& n2, d &&& n3]
          [255 - n0, 255 - n1, 255 - n2, 255 - n3] ∧
      (∀ x ∈ List.zipWith (· + ·) [a &&& n0, b &&& n1, c &&& n2, d &&& n3]
          [255 - n0, 255 - n1, 255 - n2, 255 - n3], x ≤ 255) ∧
      CIDR.host_max
          (CIDR.list_to_string_nat [a &&& n0, b &&& n1, c &&& n2, d &&& n3])
          (CIDR.list_to_string_nat [255 - n0, 255 - n1, 255 - n2, 255 - n3]) =
        some (CIDR.list_to_string_nat
          [(a &&& n0) ||| (255 - n0), (b &&& n1) ||| (255 - n1),
           (c &&& n2) ||| (255 - n2), (d &&& n3) ||| (255 - n3)]) ∧
      List.Forall₂ (· ≤ ·) [a &&& n0, b &&& n1, c &&& n2, d &&& n3]
        (List.zipWith (· + ·) [a &&& n0, b &&& n1, c &&& n2, d &&& n3]
          [255 - n0, 255 - n1, 255 - n2, 255 - n3]) := by
  obtain ⟨n0, n1, n2, n3, hn, h0, h1, h2, h3⟩ := CIDR.netmask_octets_eq hm
  have f0 := CIDR.octet_facts n0 h0 a (by omega)
  have f1 := CIDR.octet_facts n1 h1 b (by omega)
  have f2 := CIDR.octet_facts n2 h2 c (by omega)
  have f3 := CIDR.octet_facts n3 h3 d (by omega)
  refine ⟨n0, n1, n2, n3, hn, ?_, ?_, ?_, ?_⟩
  · simp only [List.zipWith_cons_cons, List.zipWith_nil_right]
    rw [f0.2.2.1, f1.2.2.1, f2.2.2.1, f3.2.2.1]
  · simp only [List.zipWith_cons_cons, List.zipWith_nil_right, List.mem_cons,
      List.not_mem_nil, or_false]
    rintro x (rfl | rfl | rfl | rfl)
    · exact f0.2.1
    · exact f1.2.1
    · exact f2.2.1
    · exact f3.2.1
  · rw [CIDR.host_max_eval (a &&& n0) (b &&& n1) (c &&& n2) (d &&& n3)
      (255 - n0) (255 - n1) (255 - n2) (255 - n3)
      (by omega) (by omega) (by omega) (by omega)
      (by omega) (by omega) (by omega) (by omega),
      f0.2.2.1, f1.2.2.1, f2.2.2.1, f3.2.2.1]
  · simp only [List.zipWith_cons_cons, List.zipWith_nil_right]
    exact List.Forall₂.cons (Nat.le_add_right _ _)
      (List.Forall₂.cons (Nat.le_add_right _ _)
        (List.Forall₂.cons (Nat.le_add_right _ _)
          (List.Forall₂.cons (Nat.le_add_right _ _) List.Forall₂.nil)))

theorem claim_C5_witness :
    ∃ n0 n1 n2 n3 : Nat, CIDR.netmask_octets 30 = [n0, n1, n2, n3] ∧
      List.zipWith (· + ·) [10 &&& n0, 0 &&& n1, 0 &&& n2, 5 &&& n3]
          [255 - n0, 255 - n1, 255 - n2, 255 - n3] =
        List.zipWith (· ||| ·) [10 &&& n0, 0 &&& n1, 0 &&& n2, 5 &&& n3]
          [255 - n0, 255 - n1, 255 - n2, 255 - n3] ∧
      (∀ x ∈ List.zipWith (· + ·) [10 &&& n0, 0 &&& n1, 0 &&& n2, 5 &&& n3]
          [255 - n0, 255 - n1, 255 - n2, 255 - n3], x ≤ 255) ∧
      CIDR.host_max
          (CIDR.list_to_string_nat [10 &&& n0, 0 &&& n1, 0 &&& n2, 5 &&& n3])
          (CIDR.list_to_string_nat [255 - n0, 255 - n1, 255 - n2, 255 - n3]) =
        some (CIDR.list_to_string_nat
          [(10 &&& n0) ||| (255 - n0), (0 &&& n1) ||| (255 - n1),
           (0 &&& n2) ||| (255 - n2), (5 &&& n3) ||| (255 - n3)]) ∧
      List.Forall₂ (· ≤ ·) [10 &&& n0, 0 &&& n1, 0 &&& n2, 5 &&& n3]
        (List.zipWith (· + ·) [10 &&& n0, 0 &&& n1, 0 &&& n2, 5 &&& n3]
          [255 - n0, 255 - n1, 255 - n2, 255 - n3]) :=
  claim_C5 10 0 0 5 30 (by decide) (by decide) (by decide) (by decide)
    (by decide)

/-- Claim C7: deriving the network address is idempotent: constructing again
from the derived subnet string with the same prefix length yields the same
subnet string. -/
theorem claim_C7 (a b c d m : Nat) (sub : String)
    (ha : a ≤ 255) (hb : b ≤ 255) (hc : c ≤ 255) (hd : d ≤ 255) (hm : m ≤ 32)
    (hs : (CIDR.initParts (CIDR.list_to_string_nat [a, b, c, d])
      (toString m)).subnet = some sub) :
    (CIDR.initParts sub (toString m)).subnet = some sub := by
  obtain ⟨n0, n1, n2, n3, hn, h0, h1, h2, h3⟩ := CIDR.netmask_octets_eq hm
  have f0 := CIDR.octet_facts n0 h0 a (by omega)
  have f1 := CIDR.octet_facts n1 h1 b (by omega)
  have f2 := CIDR.octet_facts n2 h2 c (by omega)
  have f3 := CIDR.octet_facts n3 h3 d (by omega)
  rw [CIDR.initParts_spec a b c d m n0 n1 n2 n3 ha hb hc hd hm hn h0 h1 h2 h3]
    at hs
  have hsub : sub = CIDR.list_to_string_nat
      [a &&& n0, b &&& n1, c &&& n2, d &&& n3] := (Option.some.inj hs).symm
  subst hsub
  rw [CIDR.initParts_spec (a &&& n0) (b &&& n1) (c &&& n2) (d &&& n3) m
    n0 n1 n2 n3 f0.1 f1.1 f2.1 f3.1 hm hn h0 h1 h2 h3]
  rw [show (a &&& n0) &&& n0 = a &&& n0 from f0.2.2.2,
    show (b &&& n1) &&& n1 = b &&& n1 from f1.2.2.2,
    show (c &&& n2) &&& n2 = c &&& n2 from f2.2.2.2,
    show (d &&& n3) &&& n3 = d &&& n3 from f3.2.2.2]

theorem claim_C7_witness :
    (CIDR.initParts (CIDR.list_to_string_nat [192, 168, 0, 2])
      (toString 24)).subnet = some "192.168.0.0" ∧
    (CIDR.initParts "192.168.0.0" (toString 24)).subnet =
      some "192.168.0.0" :=
  ⟨by decide,
    claim_C7 192 168 0 2 24 "192.168.0.0" (by decide) (by decide) (by decide)
      (by decide) (by decide) (by decide)⟩

theorem claim_C10_amended_witness :
    ∃ (ips : List String) (tot : Nat),
      (CIDR.initParts (CIDR.list_to_string_nat [10, 0, 0, 5])
        (toString 30)).allips = some ips ∧
      (CIDR.initParts (CIDR.list_to_string_nat [10, 0, 0, 5])
        (toString 30)).total = some tot ∧
      ips.length = tot :=
  claim_C10_amended 10 0 0 5 30 (by decide) (by decide) (by decide) (by decide)
    (by decide)
